import Mathlib

/-!
Shallow embedding of the job-graph compiler in `bilby_pipe/main.py`:
the `Input` configuration object (detector normalization, X509 credential
resolution) and the `Dag` class (job-set expansion, job compilation,
post-processing aggregation job), together with theorems settling the
specification claims about them.

Strings are modelled with Lean `String`; the file-system is modelled as a
predicate `String → Bool` (the result of `os.path.isfile`), and the
environment as an `Option String` (the value of `X509_USER_PROXY`, if set).
-/

namespace BilbyPipe

/-- Embeds Python `string.split(' ')` (split on every single space character;
an empty string yields `[""]`, consecutive spaces yield empty fields). -/
def splitOnSpace : List Char → List Char → List (List Char)
  | [], acc => [acc.reverse]
  | c :: rest, acc =>
      if c = ' ' then acc.reverse :: splitOnSpace rest []
      else splitOnSpace rest (c :: acc)

/-- Embeds `Input._split_string_by_space`: `"H1 L1"` becomes `["H1", "L1"]`. -/
def split_string_by_space (s : String) : List String :=
  (splitOnSpace s.data []).map fun cs => ⟨cs⟩

/-- Embeds Python `str.upper()` (ASCII case mapping suffices for detector
names). -/
def pyUpper (s : String) : String := ⟨s.data.map Char.toUpper⟩

/-- Embeds Python `''.join(strings)`: concatenation of a list of strings. -/
def strJoin (l : List String) : String := ⟨(l.map String.data).flatten⟩

/-- Character-level interleaving of a separator, the data of
`sep.join(strings)`. -/
def joinSep (sep : Char) : List (List Char) → List Char
  | [] => []
  | [t] => t
  | t :: rest => t ++ sep :: joinSep sep rest

/-- Embeds Python `' '.join(strings)`. -/
def spaceJoin (l : List String) : String := ⟨joinSep ' ' (l.map String.data)⟩

/-- Lexicographic comparison of character lists by code point, the order
Python uses to compare strings. -/
def listCharLe : List Char → List Char → Bool
  | [], _ => true
  | _ :: _, [] => false
  | a :: as, b :: bs =>
      if a.toNat < b.toNat then true
      else if b.toNat < a.toNat then false
      else listCharLe as bs

/-- The `≤` comparison Python uses on strings. -/
def pyLe (a b : String) : Prop := listCharLe a.data b.data = true

instance : DecidableRel pyLe := fun a b =>
  inferInstanceAs (Decidable (listCharLe a.data b.data = true))

/-- Embeds Python `list.sort()` on strings: the stable ascending sort by the
lexicographic order on code points; since equal string keys are identical
strings, the result is the sorted permutation, modelled by insertion sort
over `pyLe`. -/
def pySort (l : List String) : List String :=
  l.insertionSort pyLe

/-- The static whitelist `Input.known_detectors`. -/
def known_detectors : List String := ["H1", "L1", "V1"]

/-- The raw `include_detectors` argument: either a single string or a list
of strings (the two types accepted by the setter). -/
inductive DetectorsInput where
  | str : String → DetectorsInput
  | list : List String → DetectorsInput
deriving DecidableEq

/-- Embeds the `Input.include_detectors` setter: a single string is split on
spaces; a one-element list has its only element split on spaces; a longer
list is taken as-is.  The list is then sorted, then uppercased, and every
element is checked against `known_detectors`; an unknown element raises
`ValueError` (modelled as `Except.error`). -/
def include_detectors_setter (input : DetectorsInput) : Except String (List String) :=
  let det_list : List String :=
    match input with
    | .str s => split_string_by_space s
    | .list l => if l.length = 1 then split_string_by_space (l.headD "") else l
  let det_list := pySort det_list
  let det_list := det_list.map pyUpper
  if det_list.all (fun det => known_detectors.contains det) then
    .ok det_list
  else
    .error "include_detectors contains an element not in the known detectors list"

/-- Embeds `os.path.basename`: the part of the path after the last slash. -/
def basename (s : String) : String :=
  ⟨(s.data.reverse.takeWhile (fun c => c ≠ '/')).reverse⟩

/-- Embeds `os.path.join(a, b)` for the uses in this module (second argument
relative). -/
def pathJoin (a b : String) : String := a ++ "/" ++ b

/-- The state of the private `Input._x509userproxy` attribute: either never
assigned (so that reading the property raises), or assigned a value
(`None`, modelled as `none`, or a path). -/
inductive X509State where
  | unassigned : X509State
  | assigned : Option String → X509State
deriving DecidableEq

/-- Embeds the `Input.x509userproxy` property getter: an unassigned
attribute raises `ValueError` (the `AttributeError` branch); otherwise the
stored value is returned. -/
def x509_getter : X509State → Except String (Option String)
  | .unassigned =>
      .error "The X509 user proxy has not been correctly set, please check the logs"
  | .assigned v => .ok v

/-- Embeds the `Input.x509userproxy` setter.  Inputs: the explicit `--X509`
argument, the `X509_USER_PROXY` environment variable, the file-system
predicate `isfile`, and the output directory.  Returns the resulting
attribute state together with the list of warnings logged, or a raised
`ValueError`.  `shutil.copyfile` raises `FileNotFoundError` when the source
file does not exist, which the setter catches with only a warning, leaving
the attribute unassigned; a missing environment variable (`KeyError`) is
caught with a warning and the attribute is assigned `None`. -/
def x509_setter (explicit : Option String) (env : Option String)
    (isfile : String → Bool) (outdir : String) :
    Except String (X509State × List String) :=
  match explicit with
  | none =>
      match env with
      | some cert_path =>
          if isfile cert_path then
            .ok (.assigned (some (pathJoin outdir ("." ++ basename cert_path))), [])
          else
            .ok (.unassigned,
              ["Environment variable X509_USER_PROXY does not point to a file. Try running $ligo-proxy-init albert.einstein"])
      | none =>
          .ok (.assigned none,
            ["Environment variable X509_USER_PROXY not set Try running $ligo-proxy-init albert.einstein"])
  | some p =>
      if isfile p then .ok (.assigned (some p), [])
      else .error "Input X509 not a file or not understood"

/-- The fields of a validated `Input` object consumed by `Dag`
(`include_detectors` is the list produced by the setter; `x509userproxy`
holds the resolved credential as read from the property). -/
structure Inputs where
  label : String
  outdir : String
  ini : String
  accounting : String
  include_detectors : List String
  coherence_test : Bool
  sampler : List String
  unknown_args : List String
  x509userproxy : Option String
  executable : String
deriving DecidableEq

/-- Embeds Python `'{}'.format(x)` applied to the resolved credential:
`None` prints as `"None"`. -/
def x509Str : Option String → String
  | none => "None"
  | some s => s

/-- The three pycondor resource-request attributes stored on a `Dag`. -/
structure DagResources where
  request_memory : Option String
  request_disk : Option String
  request_cpus : Option String
deriving DecidableEq

/-- Embeds the resource-request assignments in `Dag.__init__`.  The source
assigns `self.request_cpus = request_disk` (not `request_cpus`); the
embedding reproduces that assignment verbatim. -/
def dagInit (request_memory request_disk request_cpus : Option String) :
    DagResources :=
  { request_memory := request_memory
    request_disk := request_disk
    request_cpus := request_disk }

/-- The detector-subset list built at the top of `Dag.jobs_inputs`: the full
`include_detectors` list is appended first; then, if `coherence_test` is
set, one singleton list per detector, in the order of `include_detectors`. -/
def detectors_list (inputs : Inputs) : List (List String) :=
  [inputs.include_detectors] ++
    (if inputs.coherence_test then
      inputs.include_detectors.map (fun detector => [detector])
    else [])

/-- Embeds `itertools.product(a, b)` for two sequences: the nested loop with
the second sequence varying fastest. -/
def itertools_product {α β : Type} : List α → List β → List (α × β)
  | [], _ => []
  | x :: xs, ys => ys.map (fun y => (x, y)) ++ itertools_product xs ys

/-- Embeds `Dag.jobs_inputs`: each element of the job-input list is the
`(detectors, sampler)` pair of one main job. -/
def jobs_inputs (inputs : Inputs) : List (List String × String) :=
  itertools_product (detectors_list inputs) inputs.sampler

/-- Embeds the `run_label` computed in `Dag._create_job`:
`'{}_{}_{}'.format(label, ''.join(detectors), sampler)`. -/
def run_label (label : String) (detectors : List String) (sampler : String) :
    String :=
  label ++ "_" ++ strJoin detectors ++ "_" ++ sampler

/-- Embeds the argument-string accumulation in `Dag._create_job`: the ini
file, one `--detectors` pair per detector, the sampler, the Cluster and
Process placeholders, then the unknown arguments joined by spaces. -/
def create_job_arguments (ini : String) (detectors : List String)
    (sampler : String) (unknown_args : List String) : String :=
  let a := "--ini " ++ ini
  let a := detectors.foldl (fun acc detector => acc ++ " --detectors " ++ detector) a
  let a := a ++ " --sampler " ++ sampler
  let a := a ++ " --cluster $(Cluster)"
  let a := a ++ " --process $(Process)"
  a ++ " " ++ spaceJoin unknown_args

/-- The fields of a leaf `pycondor.Job` that `Dag._create_job` computes
(paths and fixed pycondor options omitted as constants of the call). -/
structure Job where
  name : String
  executable : String
  arguments : String
  request_memory : Option String
  request_disk : Option String
  request_cpus : Option String
  extra_lines : String
deriving DecidableEq

/-- Embeds `Dag._create_job` for one `(detectors, sampler)` job input. -/
def create_job (inputs : Inputs) (res : DagResources)
    (detectors : List String) (sampler : String) : Job :=
  { name := run_label inputs.label detectors sampler
    executable := inputs.executable
    arguments := create_job_arguments inputs.ini detectors sampler inputs.unknown_args
    request_memory := res.request_memory
    request_disk := res.request_disk
    request_cpus := res.request_cpus
    extra_lines := "accounting_group=" ++ inputs.accounting ++ "\n" ++
      "x509userproxy=" ++ x509Str inputs.x509userproxy }

/-- Embeds `Dag.create_jobs`: one leaf job per element of `jobs_inputs`, in
order. -/
def dag_jobs (inputs : Inputs) (res : DagResources) : List Job :=
  (jobs_inputs inputs).map (fun p => create_job inputs res p.1 p.2)

/-- The aggregation (post-processing) `pycondor.Job`, with its parent list
(the jobs on which `add_parent` was called, in order). -/
structure PostJob where
  name : String
  executable : String
  arguments : String
  extra_lines : String
  parents : List Job
deriving DecidableEq

/-- Embeds `Dag.create_postprocessing_jobs`: builds the single
`<label>_combine_results` job and then adds every element of `self.jobs`
as a parent, one `add_parent` call per job, starting from no parents. -/
def create_postprocessing_jobs (inputs : Inputs) (jobs : List Job) : PostJob :=
  let name := inputs.label ++ "_combine_results"
  let expected_h5_files :=
    jobs.map (fun job => inputs.outdir ++ "/" ++ job.name ++ "_result.h5")
  let labels := spaceJoin ((jobs_inputs inputs).map (fun p => strJoin p.1))
  let post_job : PostJob :=
    { name := name
      executable := "/home/gregory.ashton/anaconda3/bin/bilby_plot"
      arguments := "-r " ++ spaceJoin expected_h5_files ++ " -f " ++
        inputs.outdir ++ "/" ++ name ++ "_corner.png -l " ++ labels
      extra_lines := "accounting_group=" ++ inputs.accounting
      parents := [] }
  jobs.foldl (fun pj job => { pj with parents := pj.parents ++ [job] }) post_job

/-- A concrete validated configuration: two detectors, one sampler,
coherence test on (the configuration of `test_jobs_creation`). -/
def sampleInputs : Inputs :=
  { label := "label"
    outdir := "/data/outdir"
    ini := "file.ini"
    accounting := "accounting.group"
    include_detectors := ["H1", "L1"]
    coherence_test := true
    sampler := ["nestle"]
    unknown_args := ["--argument", "value"]
    x509userproxy := none
    executable := "/usr/bin/analysis" }

/-- The same configuration with a single detector. -/
def singleDetInputs : Inputs := { sampleInputs with include_detectors := ["H1"] }

/-- The sample configuration with the same sampler listed twice and no
coherence test. -/
def dupSamplerInputs : Inputs :=
  { sampleInputs with sampler := ["nestle", "nestle"], coherence_test := false }

/-- The sample configuration with the same detector listed twice (the
validated setter accepts repeated detectors). -/
def dupDetInputs : Inputs := { sampleInputs with include_detectors := ["H1", "H1"] }

/-! ### General lemmas about the embedded operations -/

theorem itertools_product_eq {α β : Type} (a : List α) (b : List β) :
    itertools_product a b = a.flatMap (fun x => b.map fun y => (x, y)) := by
  induction a with
  | nil => rfl
  | cons x xs ih => simp [itertools_product, ih]

theorem parents_foldl (jobs : List Job) (pj : PostJob) :
    (jobs.foldl (fun pj job => { pj with parents := pj.parents ++ [job] }) pj).parents
      = pj.parents ++ jobs := by
  induction jobs generalizing pj with
  | nil => simp
  | cons j js ih => simp [ih]

theorem create_postprocessing_parents (inputs : Inputs) (jobs : List Job) :
    (create_postprocessing_jobs inputs jobs).parents = jobs := by
  simp [create_postprocessing_jobs, parents_foldl]

/-! ### Claim theorems -/

/-- C1 counterexample: with a single detector and `coherence_test` on, the
job-set expander emits the `(subset, sampler)` entry twice — the duplicate
singleton subset is not suppressed, so the output is not one specification. -/
theorem claim_C1_counterexample :
    jobs_inputs singleDetInputs = [(["H1"], "nestle"), (["H1"], "nestle")] ∧
      (jobs_inputs singleDetInputs).length = 2 :=
  ⟨rfl, rfl⟩

/-- C1 (amended): for every configuration whose detector set has exactly one
member and whose `coherence_test` flag is true, `Dag.jobs_inputs` yields the
per-sampler entries twice over — the duplicate singleton subset, which
equals the full set, is not detected, and the output contains two identical
`(subset, sampler)` entries per sampler. -/
theorem claim_C1 (inputs : Inputs) (d : String)
    (h1 : inputs.include_detectors = [d]) (h2 : inputs.coherence_test = true) :
    jobs_inputs inputs =
      inputs.sampler.map (fun s => ([d], s)) ++
        inputs.sampler.map (fun s => ([d], s)) := by
  simp [jobs_inputs, detectors_list, h1, h2, itertools_product]

theorem claim_C1_witness :
    singleDetInputs.include_detectors = ["H1"] ∧
      singleDetInputs.coherence_test = true ∧
      jobs_inputs singleDetInputs =
        singleDetInputs.sampler.map (fun s => (["H1"], s)) ++
          singleDetInputs.sampler.map (fun s => (["H1"], s)) :=
  ⟨rfl, rfl, claim_C1 singleDetInputs "H1" rfl rfl⟩

/-- C2 counterexample: when `X509_USER_PROXY` names a missing file, the
setter only logs a warning and leaves the attribute unassigned, and then
reading the `x509userproxy` property raises a `ValueError` — contradicting
the claim that in both fallback cases reading the attribute does not raise. -/
theorem claim_C2_counterexample :
    x509_setter none (some "/home/user/proxy") (fun _ => false) "/data/outdir" =
      .ok (.unassigned,
        ["Environment variable X509_USER_PROXY does not point to a file. Try running $ligo-proxy-init albert.einstein"]) ∧
      x509_getter .unassigned =
        .error "The X509 user proxy has not been correctly set, please check the logs" :=
  ⟨rfl, rfl⟩

/-- C2 (amended): with no explicit credential path, construction always
completes with only a warning in both fallback cases, but the two cases
differ afterwards: when `X509_USER_PROXY` is unset the attribute is
assigned `None` and reading it succeeds, whereas when the variable names a
missing file the attribute is left unassigned and reading it raises a
`ValueError`. -/
theorem claim_C2 (isfile : String → Bool) (outdir cert_path : String) :
    (x509_setter none none isfile outdir =
        .ok (.assigned none,
          ["Environment variable X509_USER_PROXY not set Try running $ligo-proxy-init albert.einstein"]) ∧
      x509_getter (.assigned none) = .ok none) ∧
    (isfile cert_path = false →
      x509_setter none (some cert_path) isfile outdir =
          .ok (.unassigned,
            ["Environment variable X509_USER_PROXY does not point to a file. Try running $ligo-proxy-init albert.einstein"]) ∧
        x509_getter .unassigned =
          .error "The X509 user proxy has not been correctly set, please check the logs") :=
  ⟨⟨rfl, rfl⟩, fun h => ⟨by simp [x509_setter, h], rfl⟩⟩

theorem claim_C2_witness :
    (((fun _ : String => false) "/home/user/proxy" = false) ∧
      x509_setter none (some "/home/user/proxy") (fun _ => false) "/data/outdir" =
          .ok (.unassigned,
            ["Environment variable X509_USER_PROXY does not point to a file. Try running $ligo-proxy-init albert.einstein"]) ∧
        x509_getter .unassigned =
          .error "The X509 user proxy has not been correctly set, please check the logs") ∧
      x509_setter none none (fun _ => false) "/data/outdir" =
        .ok (.assigned none,
          ["Environment variable X509_USER_PROXY not set Try running $ligo-proxy-init albert.einstein"]) :=
  ⟨⟨rfl, (claim_C2 (fun _ => false) "/data/outdir" "/home/user/proxy").2 rfl⟩,
    (claim_C2 (fun _ => false) "/data/outdir" "/home/user/proxy").1.1⟩

/-- C5: the expander output is exactly each detector subset — the full set
first, then, if `coherence_test` is set, one singleton per detector in
order — paired with each sampler, the sampler varying fastest; and on the
two-detector, one-sampler, coherence-test configuration it is precisely
`([H1,L1],nestle), ([H1],nestle), ([L1],nestle)`. -/
theorem claim_C5 (inputs : Inputs) :
    jobs_inputs inputs =
      ([inputs.include_detectors] ++
        (if inputs.coherence_test then
          inputs.include_detectors.map (fun d => [d])
        else [])).flatMap (fun ds => inputs.sampler.map fun s => (ds, s)) ∧
      jobs_inputs sampleInputs =
        [(["H1", "L1"], "nestle"), (["H1"], "nestle"), (["L1"], "nestle")] := by
  constructor
  · rw [jobs_inputs, detectors_list, itertools_product_eq]
  · rfl

/-- C6: for every non-empty list of compiled leaf jobs, the single
aggregation job built by `Dag.create_postprocessing_jobs` has exactly the
leaf jobs as its parents — every leaf is added as a parent, with no partial
aggregation. -/
theorem claim_C6 (inputs : Inputs) (jobs : List Job) (h : jobs ≠ []) :
    (create_postprocessing_jobs inputs jobs).parents = jobs ∧
      ∀ j : Job, j ∈ (create_postprocessing_jobs inputs jobs).parents ↔ j ∈ jobs := by
  have hp := create_postprocessing_parents inputs jobs
  exact ⟨hp, fun j => by rw [hp]⟩

theorem claim_C6_witness :
    ([create_job sampleInputs (dagInit none none none) ["H1"] "nestle"] ≠ ([] : List Job)) ∧
      (create_postprocessing_jobs sampleInputs
          [create_job sampleInputs (dagInit none none none) ["H1"] "nestle"]).parents =
        [create_job sampleInputs (dagInit none none none) ["H1"] "nestle"] :=
  ⟨by simp,
    (claim_C6 sampleInputs
      [create_job sampleInputs (dagInit none none none) ["H1"] "nestle"] (by simp)).1⟩

/-- C7 counterexample: with an empty leaf-job list, assembly does not fail:
it produces the `label_combine_results` aggregation job with an empty
parent set — the degenerate job the claim says is never produced. -/
theorem claim_C7_counterexample :
    (create_postprocessing_jobs sampleInputs []).parents = [] ∧
      (create_postprocessing_jobs sampleInputs []).name = "label_combine_results" :=
  ⟨rfl, rfl⟩

/-- C7 (amended): if the list of leaf jobs reaching graph assembly is empty,
assembly succeeds without any defensive check and produces a degenerate
aggregation job with no parents. -/
theorem claim_C7 (inputs : Inputs) :
    (create_postprocessing_jobs inputs []).parents = [] :=
  create_postprocessing_parents inputs []

/-- C8: the `Dag` constructor assigns the disk request to the cpus-request
attribute, so a compiled leaf job's cpus request is the requested disk
value, not the requested cpus value: with memory `4GB`, disk `2GB`, cpus
`16`, the job's cpus request is `2GB`. -/
theorem claim_C8 :
    (dagInit (some "4GB") (some "2GB") (some "16")).request_cpus = some "2GB" ∧
      (create_job sampleInputs (dagInit (some "4GB") (some "2GB") (some "16"))
          ["H1"] "nestle").request_cpus = some "2GB" ∧
      (create_job sampleInputs (dagInit (some "4GB") (some "2GB") (some "16"))
          ["H1"] "nestle").request_cpus ≠ some "16" ∧
      (create_job sampleInputs (dagInit (some "4GB") (some "2GB") (some "16"))
          ["H1"] "nestle").request_memory = some "4GB" ∧
      (create_job sampleInputs (dagInit (some "4GB") (some "2GB") (some "16"))
          ["H1"] "nestle").request_disk = some "2GB" :=
  ⟨rfl, rfl, by decide, rfl, rfl⟩

/-- C10: an explicitly supplied X509 credential path that does not name an
existing file makes the setter raise
`ValueError('Input X509 not a file or not understood')`, regardless of the
environment — unlike the non-fatal environment-variable fallback. -/
theorem claim_C10 (p : String) (env : Option String) (isfile : String → Bool)
    (outdir : String) (h : isfile p = false) :
    x509_setter (some p) env isfile outdir =
      .error "Input X509 not a file or not understood" := by
  simp [x509_setter, h]

theorem claim_C10_witness :
    ((fun _ : String => false) "/home/user/missing.pem" = false) ∧
      x509_setter (some "/home/user/missing.pem") none (fun _ => false) "/data/outdir" =
        .error "Input X509 not a file or not understood" :=
  ⟨rfl, claim_C10 "/home/user/missing.pem" none (fun _ => false) "/data/outdir" rfl⟩

/-! ### Lemmas for detector normalization (C4) -/

theorem splitOnSpace_no_space (cs : List Char) : ∀ acc : List Char, ' ' ∉ cs →
    splitOnSpace cs acc = [acc.reverse ++ cs] := by
  induction cs with
  | nil => intro acc _; simp [splitOnSpace]
  | cons c rest ih =>
      intro acc h
      have hc : c ≠ ' ' := fun hco => h (hco ▸ List.mem_cons_self c rest)
      have hr : ' ' ∉ rest := fun hm => h (List.mem_cons_of_mem c hm)
      simp [splitOnSpace, hc, ih (c :: acc) hr]

theorem splitOnSpace_sep (cs : List Char) : ∀ (rest acc : List Char), ' ' ∉ cs →
    splitOnSpace (cs ++ ' ' :: rest) acc =
      (acc.reverse ++ cs) :: splitOnSpace rest [] := by
  induction cs with
  | nil => intro rest acc _; simp [splitOnSpace]
  | cons c tail ih =>
      intro rest acc h
      have hc : c ≠ ' ' := fun hco => h (hco ▸ List.mem_cons_self c tail)
      have ht : ' ' ∉ tail := fun hm => h (List.mem_cons_of_mem c hm)
      simp [splitOnSpace, hc, ih rest (c :: acc) ht]

theorem splitOnSpace_joinSep (ts : List (List Char)) (h0 : ts ≠ [])
    (h : ∀ t ∈ ts, ' ' ∉ t) :
    splitOnSpace (joinSep ' ' ts) [] = ts := by
  induction ts with
  | nil => exact absurd rfl h0
  | cons t rest ih =>
      cases rest with
      | nil =>
          have := splitOnSpace_no_space t [] (h t (List.mem_cons_self t []))
          simpa [joinSep] using this
      | cons u rest2 =>
          have ht : ' ' ∉ t := h t (List.mem_cons_self t (u :: rest2))
          have hrest : ∀ x ∈ u :: rest2, ' ' ∉ x :=
            fun x hx => h x (List.mem_cons_of_mem t hx)
          have hjoin : joinSep ' ' (t :: u :: rest2) =
              t ++ ' ' :: joinSep ' ' (u :: rest2) := rfl
          rw [hjoin, splitOnSpace_sep t _ [] ht,
            ih (by simp) hrest]
          simp

theorem known_detector_facts {t : String} (h : t ∈ known_detectors) :
    ' ' ∉ t.data ∧ pyUpper t = t ∧ t.data.length = 2 ∧ '_' ∉ t.data := by
  simp only [known_detectors, List.mem_cons, List.not_mem_nil, or_false] at h
  rcases h with rfl | rfl | rfl <;> refine ⟨by decide, rfl, by decide, by decide⟩

theorem split_string_by_space_of_known {t : String} (h : t ∈ known_detectors) :
    split_string_by_space t = [t] := by
  have hs : ' ' ∉ t.data := (known_detector_facts h).1
  simp [split_string_by_space, splitOnSpace_no_space t.data [] hs]

theorem split_spaceJoin (ts : List String) (h0 : ts ≠ [])
    (h : ∀ t ∈ ts, t ∈ known_detectors) :
    split_string_by_space (spaceJoin ts) = ts := by
  have hmap : ts.map String.data ≠ [] := by simpa using h0
  have hns : ∀ cs ∈ ts.map String.data, ' ' ∉ cs := by
    intro cs hcs
    obtain ⟨t, ht, rfl⟩ := List.mem_map.mp hcs
    exact (known_detector_facts (h t ht)).1
  have hsplit := splitOnSpace_joinSep (ts.map String.data) hmap hns
  simp only [split_string_by_space, spaceJoin] at hsplit ⊢
  rw [hsplit, List.map_map]
  exact List.map_id ts

theorem map_pyUpper_of_known {l : List String} (h : ∀ t ∈ l, t ∈ known_detectors) :
    l.map pyUpper = l := by
  induction l with
  | nil => rfl
  | cons t rest ih =>
      have ht := (known_detector_facts (h t (List.mem_cons_self t rest))).2.1
      rw [List.map_cons, ht, ih (fun x hx => h x (List.mem_cons_of_mem t hx))]

theorem listCharLe_cons_iff {x y : Char} {as bs : List Char} :
    listCharLe (x :: as) (y :: bs) = true ↔
      x.toNat < y.toNat ∨ (x.toNat = y.toNat ∧ listCharLe as bs = true) := by
  simp only [listCharLe]
  by_cases h1 : x.toNat < y.toNat
  · simp [h1]
  · by_cases h2 : y.toNat < x.toNat
    · simp only [h1, if_false, h2, if_true]
      constructor
      · intro h; exact absurd h (by simp)
      · intro h
        rcases h with h | ⟨h, -⟩
        · exact h.elim
        · omega
    · have hxy : x.toNat = y.toNat := by omega
      simp [h1, h2, hxy]

theorem listCharLe_total : ∀ a b : List Char,
    listCharLe a b = true ∨ listCharLe b a = true := by
  intro a
  induction a with
  | nil => intro b; left; rfl
  | cons x as ih =>
      intro b
      cases b with
      | nil => right; rfl
      | cons y bs =>
          rcases Nat.lt_trichotomy x.toNat y.toNat with h | h | h
          · left; exact listCharLe_cons_iff.mpr (Or.inl h)
          · rcases ih bs with ht | ht
            · left; exact listCharLe_cons_iff.mpr (Or.inr ⟨h, ht⟩)
            · right; exact listCharLe_cons_iff.mpr (Or.inr ⟨h.symm, ht⟩)
          · right; exact listCharLe_cons_iff.mpr (Or.inl h)

theorem listCharLe_trans : ∀ a b c : List Char, listCharLe a b = true →
    listCharLe b c = true → listCharLe a c = true := by
  intro a
  induction a with
  | nil => intro b c _ _; rfl
  | cons x as ih =>
      intro b c hab hbc
      cases b with
      | nil => simp [listCharLe] at hab
      | cons y bs =>
          cases c with
          | nil => simp [listCharLe] at hbc
          | cons z cs =>
              rcases listCharLe_cons_iff.mp hab with h1 | ⟨h1, h1t⟩ <;>
                rcases listCharLe_cons_iff.mp hbc with h2 | ⟨h2, h2t⟩
              · exact listCharLe_cons_iff.mpr (Or.inl (h1.trans h2))
              · exact listCharLe_cons_iff.mpr (Or.inl (h2 ▸ h1))
              · exact listCharLe_cons_iff.mpr (Or.inl (h1 ▸ h2))
              · exact listCharLe_cons_iff.mpr
                  (Or.inr ⟨h1.trans h2, ih bs cs h1t h2t⟩)

theorem char_toNat_inj {a b : Char} (h : a.toNat = b.toNat) : a = b :=
  Char.ofNat_toNat a ▸ Char.ofNat_toNat b ▸ congrArg Char.ofNat h

theorem listCharLe_antisymm : ∀ a b : List Char, listCharLe a b = true →
    listCharLe b a = true → a = b := by
  intro a
  induction a with
  | nil =>
      intro b _ hba
      cases b with
      | nil => rfl
      | cons y bs => simp [listCharLe] at hba
  | cons x as ih =>
      intro b hab hba
      cases b with
      | nil => simp [listCharLe] at hab
      | cons y bs =>
          rcases listCharLe_cons_iff.mp hab with h1 | ⟨h1, h1t⟩ <;>
            rcases listCharLe_cons_iff.mp hba with h2 | ⟨h2, h2t⟩
          · omega
          · omega
          · omega
          · rw [char_toNat_inj h1, ih bs h1t h2t]

theorem string_data_eq {a b : String} (h : a.data = b.data) : a = b := by
  cases a; cases b; simp_all

theorem pySort_perm_eq {ts ts' : List String} (h : ts.Perm ts') :
    pySort ts = pySort ts' := by
  haveI : IsTotal String pyLe := ⟨fun a b => listCharLe_total a.data b.data⟩
  haveI : IsTrans String pyLe :=
    ⟨fun a b c hab hbc => listCharLe_trans a.data b.data c.data hab hbc⟩
  haveI : IsAntisymm String pyLe :=
    ⟨fun a b hab hba => string_data_eq (listCharLe_antisymm a.data b.data hab hba)⟩
  exact List.eq_of_perm_of_sorted
    ((List.perm_insertionSort _ ts).trans (h.trans (List.perm_insertionSort _ ts').symm))
    (List.sorted_insertionSort _ ts) (List.sorted_insertionSort _ ts')

theorem pySort_sorted (ts : List String) : List.Sorted pyLe (pySort ts) := by
  haveI : IsTotal String pyLe := ⟨fun a b => listCharLe_total a.data b.data⟩
  haveI : IsTrans String pyLe :=
    ⟨fun a b c hab hbc => listCharLe_trans a.data b.data c.data hab hbc⟩
  exact List.sorted_insertionSort _ ts

theorem contains_of_known {t : String} (h : t ∈ known_detectors) :
    known_detectors.contains t = true := by
  simp only [known_detectors, List.mem_cons, List.not_mem_nil, or_false] at h
  rcases h with rfl | rfl | rfl <;> rfl

theorem normalize_of_known (l : List String) (h : ∀ t ∈ l, t ∈ known_detectors) :
    ((pySort l).map pyUpper).all (fun det => known_detectors.contains det) = true ∧
      (pySort l).map pyUpper = pySort l := by
  have hmem : ∀ t ∈ pySort l, t ∈ known_detectors := by
    intro t ht
    exact h t ((List.mem_insertionSort _).mp ht)
  have hup := map_pyUpper_of_known hmem
  refine ⟨?_, hup⟩
  rw [hup, List.all_eq_true]
  intro t ht
  exact contains_of_known (hmem t ht)

theorem setter_str_eval (ts : List String) (h0 : ts ≠ [])
    (hk : ∀ t ∈ ts, t ∈ known_detectors) :
    include_detectors_setter (.str (spaceJoin ts)) = .ok (pySort ts) := by
  obtain ⟨hall, hup⟩ := normalize_of_known ts hk
  rw [hup] at hall
  simp only [include_detectors_setter, split_spaceJoin ts h0 hk, hup]
  rw [hall]
  rfl

theorem setter_list_eval (l : List String) (hk : ∀ t ∈ l, t ∈ known_detectors) :
    include_detectors_setter (.list l) = .ok (pySort l) := by
  obtain ⟨hall, hup⟩ := normalize_of_known l hk
  rw [hup] at hall
  by_cases hlen : l.length = 1
  · obtain ⟨t, rfl⟩ : ∃ t, l = [t] := by
      cases l with
      | nil => simp at hlen
      | cons a rest =>
          cases rest with
          | nil => exact ⟨a, rfl⟩
          | cons b m => simp at hlen
    have hsp := split_string_by_space_of_known (hk t (List.mem_cons_self t []))
    simp only [include_detectors_setter, hlen, List.headD_cons, hsp, ite_self, hup]
    rw [hall]
    rfl
  · simp only [include_detectors_setter, if_neg hlen, hup]
    rw [hall]
    rfl

/-- C4 counterexample: a comma-delimited detector string is not split (the
setter only splits on spaces) and is rejected as an unknown detector, and a
mixed-case token list denoting the same set as an uppercase one normalizes
to a different list, because sorting happens before uppercasing. -/
theorem claim_C4_counterexample :
    include_detectors_setter (.str "H1,L1") =
        .error "include_detectors contains an element not in the known detectors list" ∧
      include_detectors_setter (.list ["h1", "L1"]) = .ok ["L1", "H1"] ∧
      include_detectors_setter (.list ["H1", "L1"]) = .ok ["H1", "L1"] ∧
      (["L1", "H1"] : List String) ≠ ["H1", "L1"] :=
  ⟨rfl, rfl, rfl, by decide⟩

/-- C4 (amended): for any detector input denoting the same multiset of
already-uppercase registry tokens, whether given as one space-delimited
string or as multiple already-separated tokens, in any order, the
`include_detectors` normalization produces the identical sorted detector
list.  (Comma- and bracket-delimited strings are rejected, and mixed-case
tokens may normalize differently, since sorting precedes uppercasing.) -/
theorem claim_C4 (ts ts' : List String) (h0 : ts ≠ []) (hp : ts.Perm ts')
    (hk : ∀ t ∈ ts, t ∈ known_detectors) :
    include_detectors_setter (.str (spaceJoin ts)) = .ok (pySort ts) ∧
      include_detectors_setter (.list ts') = .ok (pySort ts) ∧
      List.Sorted pyLe (pySort ts) := by
  have hk' : ∀ t ∈ ts', t ∈ known_detectors := fun t ht => hk t (hp.mem_iff.mpr ht)
  have hsort : pySort ts' = pySort ts := pySort_perm_eq hp.symm
  exact ⟨setter_str_eval ts h0 hk, (setter_list_eval ts' hk').trans (by rw [hsort]),
    pySort_sorted ts⟩

theorem claim_C4_witness :
    ((["L1", "H1"] : List String) ≠ []) ∧
      (["L1", "H1"] : List String).Perm ["H1", "L1"] ∧
      (∀ t ∈ (["L1", "H1"] : List String), t ∈ known_detectors) ∧
      include_detectors_setter (.str (spaceJoin ["L1", "H1"])) =
        .ok (pySort ["L1", "H1"]) ∧
      include_detectors_setter (.list ["H1", "L1"]) = .ok (pySort ["L1", "H1"]) ∧
      List.Sorted pyLe (pySort ["L1", "H1"]) := by
  have h := claim_C4 ["L1", "H1"] ["H1", "L1"] (by decide)
    (List.Perm.swap "H1" "L1" []) (by decide)
  exact ⟨by decide, List.Perm.swap "H1" "L1" [], by decide, h.1, h.2.1, h.2.2⟩

/-! ### Lemmas for job-name uniqueness (C3) -/

theorem underscore_split (a : List Char) : ∀ (b c d : List Char), '_' ∉ a → '_' ∉ b →
    a ++ '_' :: c = b ++ '_' :: d → a = b ∧ c = d := by
  induction a with
  | nil =>
      intro b c d _ hb h
      cases b with
      | nil => simpa using h
      | cons y bs =>
          simp only [List.nil_append, List.cons_append, List.cons.injEq] at h
          exfalso
          apply hb
          rw [← h.1]
          exact List.mem_cons_self _ _
  | cons x as ih =>
      intro b c d ha hb h
      cases b with
      | nil =>
          simp only [List.cons_append, List.nil_append, List.cons.injEq] at h
          exfalso
          apply ha
          rw [h.1]
          exact List.mem_cons_self _ _
      | cons y bs =>
          simp only [List.cons_append, List.cons.injEq] at h
          have ha' : '_' ∉ as := fun hm => ha (List.mem_cons_of_mem x hm)
          have hb' : '_' ∉ bs := fun hm => hb (List.mem_cons_of_mem y hm)
          obtain ⟨hab, hcd⟩ := ih bs c d ha' hb' h.2
          exact ⟨by rw [h.1, hab], hcd⟩

theorem strJoin_data (l : List String) :
    (strJoin l).data = (l.map String.data).flatten := rfl

theorem strJoin_length {ds : List String}
    (h : ∀ d ∈ ds, d ∈ known_detectors) :
    (strJoin ds).data.length = 2 * ds.length := by
  induction ds with
  | nil => rfl
  | cons d rest ih =>
      have hd := (known_detector_facts (h d (List.mem_cons_self d rest))).2.2.1
      have hr := ih (fun x hx => h x (List.mem_cons_of_mem d hx))
      rw [strJoin_data] at hr ⊢
      simp only [List.map_cons, List.flatten_cons, List.length_append, List.length_cons]
      omega

theorem strJoin_no_underscore {ds : List String}
    (h : ∀ d ∈ ds, d ∈ known_detectors) :
    '_' ∉ (strJoin ds).data := by
  intro hmem
  rw [strJoin_data, List.mem_flatten] at hmem
  obtain ⟨t, ht, hc⟩ := hmem
  obtain ⟨d, hd, rfl⟩ := List.mem_map.mp ht
  exact (known_detector_facts (h d hd)).2.2.2 hc

theorem strJoin_singleton (d : String) : strJoin [d] = d := by
  apply string_data_eq
  simp [strJoin_data]

theorem run_label_data (label : String) (ds : List String) (s : String) :
    (run_label label ds s).data =
      label.data ++ '_' :: ((strJoin ds).data ++ '_' :: s.data) := by
  simp only [run_label, String.data_append, List.append_assoc]
  rfl

theorem run_label_inj {label : String} {ds1 ds2 : List String} {s1 s2 : String}
    (h1 : '_' ∉ (strJoin ds1).data) (h2 : '_' ∉ (strJoin ds2).data)
    (h : run_label label ds1 s1 = run_label label ds2 s2) :
    strJoin ds1 = strJoin ds2 ∧ s1 = s2 := by
  have hd := congrArg String.data h
  rw [run_label_data, run_label_data] at hd
  have hd2 := List.append_cancel_left hd
  rw [List.cons.injEq] at hd2
  obtain ⟨hj, hs⟩ := underscore_split _ _ _ _ h1 h2 hd2.2
  exact ⟨string_data_eq hj, string_data_eq hs⟩

theorem mem_detectors_list {inputs : Inputs} {ds : List String}
    (h : ds ∈ detectors_list inputs) :
    ds = inputs.include_detectors ∨
      (inputs.coherence_test = true ∧
        ∃ d ∈ inputs.include_detectors, ds = [d]) := by
  cases hc : inputs.coherence_test with
  | false =>
      simp [detectors_list, hc] at h
      exact Or.inl h
  | true =>
      simp [detectors_list, hc] at h
      rcases h with h | ⟨d, hd, rfl⟩
      · exact Or.inl h
      · exact Or.inr ⟨rfl, d, hd, rfl⟩

theorem detectors_list_known {inputs : Inputs} {ds : List String}
    (h3 : ∀ d ∈ inputs.include_detectors, d ∈ known_detectors)
    (h : ds ∈ detectors_list inputs) : ∀ d ∈ ds, d ∈ known_detectors := by
  rcases mem_detectors_list h with rfl | ⟨-, d, hd, rfl⟩
  · exact h3
  · intro x hx
    rw [List.mem_singleton] at hx
    exact hx ▸ h3 d hd

theorem strJoin_inj_on {inputs : Inputs}
    (h3 : ∀ d ∈ inputs.include_detectors, d ∈ known_detectors)
    (h4 : inputs.coherence_test = true → 2 ≤ inputs.include_detectors.length) :
    ∀ ds1 ∈ detectors_list inputs, ∀ ds2 ∈ detectors_list inputs,
      strJoin ds1 = strJoin ds2 → ds1 = ds2 := by
  intro ds1 hm1 ds2 hm2 hj
  have hk1 := detectors_list_known h3 hm1
  have hk2 := detectors_list_known h3 hm2
  have hlen : ds1.length = ds2.length := by
    have l1 := strJoin_length hk1
    have l2 := strJoin_length hk2
    rw [hj] at l1
    omega
  rcases mem_detectors_list hm1 with rfl | ⟨hc1, d1, hd1, rfl⟩ <;>
    rcases mem_detectors_list hm2 with h' | ⟨hc2, d2, hd2, rfl⟩
  · rw [h']
  · have := h4 hc2
    simp only [List.length_cons, List.length_nil] at hlen
    omega
  · have := h4 hc1
    rw [h'] at hlen
    simp only [List.length_cons, List.length_nil] at hlen
    omega
  · rw [strJoin_singleton, strJoin_singleton] at hj
    rw [hj]

theorem detectors_list_nodup {inputs : Inputs}
    (h1 : inputs.include_detectors.Nodup)
    (h4 : inputs.coherence_test = true → 2 ≤ inputs.include_detectors.length) :
    (detectors_list inputs).Nodup := by
  cases hc : inputs.coherence_test with
  | false => simp [detectors_list, hc]
  | true =>
      have hlen := h4 hc
      simp only [detectors_list, hc, if_true, List.singleton_append]
      rw [List.nodup_cons]

      constructor
      · intro hmem
        obtain ⟨d, _, heq⟩ := List.mem_map.mp hmem
        rw [← heq] at hlen
        simp at hlen
      · exact h1.map (fun a b hab => by simpa using hab)

theorem jobs_inputs_nodup {inputs : Inputs}
    (h1 : inputs.include_detectors.Nodup) (h2 : inputs.sampler.Nodup)
    (h4 : inputs.coherence_test = true → 2 ≤ inputs.include_detectors.length) :
    (jobs_inputs inputs).Nodup := by
  have he : jobs_inputs inputs = detectors_list inputs ×ˢ inputs.sampler :=
    itertools_product_eq _ _
  rw [he]
  exact (detectors_list_nodup h1 h4).product h2

theorem mem_jobs_inputs {inputs : Inputs} {p : List String × String}
    (h : p ∈ jobs_inputs inputs) :
    p.1 ∈ detectors_list inputs ∧ p.2 ∈ inputs.sampler := by
  have he : jobs_inputs inputs = detectors_list inputs ×ˢ inputs.sampler :=
    itertools_product_eq _ _
  rw [he] at h
  obtain ⟨a, b⟩ := p
  exact List.pair_mem_product.mp h

theorem dag_jobs_names (inputs : Inputs) (res : DagResources) :
    (dag_jobs inputs res).map Job.name =
      (jobs_inputs inputs).map (fun p => run_label inputs.label p.1 p.2) := by
  simp [dag_jobs, create_job, List.map_map, Function.comp]

/-- C3 counterexample: the leaf-job names are not always pairwise distinct:
a single-detector configuration with the coherence test on yields the name
`label_H1_nestle` twice; a duplicated sampler entry also duplicates a name;
and a duplicated (validated) detector with the coherence test on does too. -/
theorem claim_C3_counterexample :
    (dag_jobs singleDetInputs (dagInit none none none)).map Job.name =
        ["label_H1_nestle", "label_H1_nestle"] ∧
      ¬ ((dag_jobs singleDetInputs (dagInit none none none)).map Job.name).Nodup ∧
      ¬ ((dag_jobs dupSamplerInputs (dagInit none none none)).map Job.name).Nodup ∧
      ¬ ((dag_jobs dupDetInputs (dagInit none none none)).map Job.name).Nodup :=
  ⟨rfl, by decide, by decide, by decide⟩

/-- C3 (amended): for every configuration whose validated detector list is
duplicate-free, whose sampler list is duplicate-free, and whose detector
list has at least two members whenever `coherence_test` is set, the names
(run labels) of all leaf job descriptors produced by compiling the full
expander output are pairwise distinct. -/
theorem claim_C3 (inputs : Inputs) (res : DagResources)
    (h1 : inputs.include_detectors.Nodup)
    (h2 : inputs.sampler.Nodup)
    (h3 : ∀ d ∈ inputs.include_detectors, d ∈ known_detectors)
    (h4 : inputs.coherence_test = true → 2 ≤ inputs.include_detectors.length) :
    ((dag_jobs inputs res).map Job.name).Nodup := by
  rw [dag_jobs_names]
  refine List.Nodup.map_on ?_ (jobs_inputs_nodup h1 h2 h4)
  intro p hp q hq heq
  obtain ⟨hp1, hp2⟩ := mem_jobs_inputs hp
  obtain ⟨hq1, hq2⟩ := mem_jobs_inputs hq
  have hu1 := strJoin_no_underscore (detectors_list_known h3 hp1)
  have hu2 := strJoin_no_underscore (detectors_list_known h3 hq1)
  obtain ⟨hj, hs⟩ := run_label_inj hu1 hu2 heq
  have hds := strJoin_inj_on h3 h4 p.1 hp1 q.1 hq1 hj
  obtain ⟨a, b⟩ := p
  obtain ⟨c, d⟩ := q
  simp only at hds hs
  rw [hds, hs]

theorem claim_C3_witness :
    sampleInputs.include_detectors.Nodup ∧
      sampleInputs.sampler.Nodup ∧
      (∀ d ∈ sampleInputs.include_detectors, d ∈ known_detectors) ∧
      (sampleInputs.coherence_test = true →
        2 ≤ sampleInputs.include_detectors.length) ∧
      ((dag_jobs sampleInputs (dagInit none none none)).map Job.name).Nodup :=
  ⟨by decide, by decide, by decide, by decide,
    claim_C3 sampleInputs (dagInit none none none)
      (by decide) (by decide) (by decide) (by decide)⟩

/-! ### Lemmas for the compiled argument vector (C9) -/

theorem strJoin_cons (x : String) (l : List String) :
    strJoin (x :: l) = x ++ strJoin l := by
  apply string_data_eq
  simp [strJoin_data, String.data_append]

theorem foldl_detectors (dets : List String) : ∀ a : String,
    dets.foldl (fun acc d => acc ++ " --detectors " ++ d) a =
      a ++ strJoin (dets.map (fun d => " --detectors " ++ d)) := by
  induction dets with
  | nil =>
      intro a
      apply string_data_eq
      simp [strJoin_data, String.data_append]
  | cons d rest ih =>
      intro a
      rw [List.foldl_cons, ih, List.map_cons, strJoin_cons]
      apply string_data_eq
      simp [String.data_append]

/-- C9: the argument vector compiled by `Dag._create_job` is exactly the
configuration-file reference, one `--detectors <det>` pair per selected
detector in order, the `--sampler <sampler>` identifier, the scheduler
placeholder tokens `--cluster $(Cluster)` and `--process $(Process)`, and
finally every caller-supplied passthrough argument appended verbatim, in
its original order, space-separated. -/
theorem claim_C9 (inputs : Inputs) (res : DagResources)
    (detectors : List String) (sampler : String) :
    (create_job inputs res detectors sampler).arguments =
      "--ini " ++ inputs.ini ++
        strJoin (detectors.map (fun d => " --detectors " ++ d)) ++
        " --sampler " ++ sampler ++
        " --cluster $(Cluster)" ++ " --process $(Process)" ++
        " " ++ spaceJoin inputs.unknown_args := by
  simp only [create_job, create_job_arguments, foldl_detectors]

end BilbyPipe
